import Mathlib

/-!
Verification of the `src-tauri/src/lib.rs` command handlers of the
podcast-clipper backend: a shallow embedding of the data model and the
five Tauri command handlers, together with theorems settling the spec's
claims about them.

The only nontrivial behaviour is `get_audio_info`, which calls Rust's
`PathBuf::file_stem` on the input string.  We embed the Unix semantics of
`std::path`: the path string is cut at `/` separators into pieces, the
pieces are parsed into components (root, `.`-current, `..`-parent, and
normal segments, with empty and non-leading `.` pieces skipped),
`file_name` is the last component when it is a normal segment, and
`file_stem` splits the file name at its last dot (keeping the whole name
when the only dot is the leading one).  Strings are handled through their
character lists so that every definition reduces by kernel computation.
-/

namespace PodcastClipper

/-- Cut a character list at every `/`, keeping empty pieces (the
character-level counterpart of splitting the path string on `/`). -/
def splitOnSlash : List Char → List (List Char)
  | [] => [[]]
  | c :: rest =>
    if c = '/' then [] :: splitOnSlash rest
    else
      match splitOnSlash rest with
      | [] => [[c]]
      | piece :: pieces => (c :: piece) :: pieces

/-- A parsed path component, mirroring `std::path::Component` on Unix
(`Prefix` never occurs on Unix and is omitted). -/
inductive Component where
  | rootDir : Component
  | curDir : Component
  | parentDir : Component
  | normal : List Char → Component
  deriving DecidableEq, Repr

/-- How one piece of the path (a maximal run between `/` separators) is
parsed by the component iterator: empty pieces and `.` pieces are skipped
(a leading `.` piece, which yields `CurDir`, is handled in `components`),
`..` is `ParentDir`, anything else is a normal segment. -/
def pieceToComponent (s : List Char) : Option Component :=
  if s = [] then none
  else if s = ['.'] then none
  else if s = ['.', '.'] then some Component.parentDir
  else some (Component.normal s)

/-- The leading component of a path string, prepended to the parsed body:
a leading `/` contributes `RootDir`; a leading `.` piece of a relative
path contributes `CurDir`; otherwise nothing is prepended. -/
def withLeading (p : String) (body : List Component) : List Component :=
  match p.toList with
  | '/' :: _ => Component.rootDir :: body
  | ['.'] => Component.curDir :: body
  | '.' :: '/' :: _ => Component.curDir :: body
  | _ => body

/-- The component list of a path string, mirroring `Path::components()` on
Unix: the leading root / current-dir component, followed by every other
piece parsed through `pieceToComponent`. -/
def components (p : String) : List Component :=
  withLeading p ((splitOnSlash p.toList).filterMap pieceToComponent)

/-- `Path::file_name()`: the last component when it is a normal segment,
`none` otherwise (empty path, root, or a path ending in `.` / `..`). -/
def file_name (p : String) : Option (List Char) :=
  match (components p).getLast? with
  | some (Component.normal s) => some s
  | _ => none

/-- The character-run predicate used when scanning a file name from its
end for the last dot. -/
def notDot (c : Char) : Bool := c ≠ '.'

/-- The stem of a file name: split at the last dot; if there is no dot, or
nothing stands before the last dot, the whole name is the stem (this
mirrors `rsplit_file_at_dot` inside `Path::file_stem`; the `..` special
case there is unreachable because `file_name` never returns `..`). -/
def stemChars (cs : List Char) : List Char :=
  match (cs.reverse).dropWhile notDot with
  | [] => cs
  | _ :: beforeRev => if beforeRev = [] then cs else beforeRev.reverse

/-- `Path::file_stem()`: the file name with its final extension removed,
as a string (`OsStr::to_str` in the source always succeeds because a Rust
`String` is valid UTF-8, so `and_then(|s| s.to_str())` is the identity). -/
def file_stem (p : String) : Option String :=
  (file_name p).map (fun cs => String.mk (stemChars cs))

/-- The `AudioFile` transfer object (`path`, `duration` in seconds,
`name`). -/
structure AudioFile where
  path : String
  duration : Float
  name : String
  deriving Repr

/-- The `ExportOptions` request bundle. -/
structure ExportOptions where
  clip_id : String
  format : String
  template_id : String
  output_dir : String
  quality : String
  deriving Repr

/-- The `ExportResult` outcome object. -/
structure ExportResult where
  success : Bool
  output_path : Option String
  error : Option String
  deriving Repr

/-- `select_audio_file`: always returns `Ok(None)`, deferring selection to
the front end. -/
def select_audio_file : Except String (Option AudioFile) :=
  Except.ok none

/-- `get_audio_info`: builds an `AudioFile` whose `name` is the path's
file stem (falling back to `"Unknown"`), whose `duration` is the sentinel
`0.0`, and whose `path` is the input unchanged. -/
def get_audio_info (path : String) : Except String AudioFile :=
  let name := (file_stem path).getD "Unknown"
  Except.ok { path := path, duration := 0.0, name := name }

/-- `export_clip`: fabricates a success outcome whose `output_path` is
`{output_dir}/clip_{clip_id}_{format}.mp4`, never populating `error`. -/
def export_clip (options : ExportOptions) : Except String ExportResult :=
  Except.ok
    { success := true
      output_path :=
        some (options.output_dir ++ "/clip_" ++ options.clip_id ++ "_"
          ++ options.format ++ ".mp4")
      error := none }

/-- `open_url`: forwards the URL to the host's open primitive and maps the
host error to its string rendering (`open::that(&url).map_err(|e|
e.to_string())`).  The host primitive `open::that` comes from an external
crate, so it is taken as an oracle parameter `hostOpen` together with its
error-to-string rendering `toStr`. -/
def open_url {ε : Type} (toStr : ε → String)
    (hostOpen : String → Except ε Unit) (url : String) :
    Except String Unit :=
  match hostOpen url with
  | Except.ok u => Except.ok u
  | Except.error e => Except.error (toStr e)

/-- The name field produced by `get_audio_info` (which is total, so the
error branch below is unreachable). -/
def nameOf (p : String) : String :=
  match get_audio_info p with
  | Except.ok a => a.name
  | Except.error _ => ""

/-- The last path segment read plainly from the spec's words: the last
nonempty piece between `/` separators. -/
def specLastSegment (p : String) : Option (List Char) :=
  ((splitOnSlash p.toList).filter (fun s => s ≠ [])).getLast?

/-- The name that the spec sentence of claim C1, read plainly, assigns to
a path: the last path segment with its extension removed, or `"Unknown"`
when no segment exists. -/
def specNameOfPath (p : String) : String :=
  match specLastSegment p with
  | none => "Unknown"
  | some s => String.mk (stemChars s)

/-- The pieces that count as segments in the amended reading of claim C1:
neither empty nor `.`. -/
def keepPiece (s : List Char) : Bool := s ≠ [] && s ≠ ['.']

/-- The component a kept piece parses to: `..` is the parent marker,
anything else a normal segment. -/
def pieceComponentOf (s : List Char) : Component :=
  if s = ['.', '.'] then Component.parentDir else Component.normal s

/-- The amended reading of claim C1: segments that are empty or `.` are
ignored when looking for the last segment, and a final `..` segment also
yields no derivable name. -/
def amendedNameOfPath (p : String) : String :=
  match ((splitOnSlash p.toList).filter keepPiece).getLast? with
  | none => "Unknown"
  | some s => if s = ['.', '.'] then "Unknown" else String.mk (stemChars s)

/-- A concrete request used to instantiate universally quantified
theorems (the spec's concrete export scenario). -/
def demoOptions : ExportOptions :=
  { clip_id := "42", format := "webm", template_id := "t1",
    output_dir := "/out", quality := "high" }

/-- The outcome `export_clip` produces on `demoOptions`. -/
def demoResult : ExportResult :=
  { success := true, output_path := some "/out/clip_42_webm.mp4",
    error := none }

/-- A concrete host oracle that rejects every URL. -/
def demoHostOpen : String → Except Unit Unit := fun _ => Except.error ()

/-- A concrete host error rendering with a non-empty message. -/
def demoToStr : Unit → String := fun _ => "no handler"

/-! ## Theorems settling the claims -/

/-- C5: `select_audio_file()`, which takes no arguments, always returns
the successful "no selection" result (`Ok` of `None`) and never returns an
error; it is a pure constant, so it has no side effect. -/
theorem select_audio_file_c5 :
    select_audio_file = Except.ok (none : Option AudioFile) := rfl

/-- C3: for every input string `path`, `get_audio_info path` returns an
`AudioFile` whose `duration` field is exactly `0.0` and whose `path` field
is the input unchanged. -/
theorem get_audio_info_duration_path_c3 (p : String) :
    ∃ a : AudioFile, get_audio_info p = Except.ok a ∧
      a.duration = 0.0 ∧ a.path = p :=
  ⟨_, rfl, rfl, rfl⟩

/-- C9: although `get_audio_info`'s return type carries a string error
channel, it returns `Ok` on every input: the error branch is unreachable,
so callers can never observe a failure. -/
theorem get_audio_info_total_c9 (p : String) :
    ∃ a : AudioFile, get_audio_info p = Except.ok a :=
  ⟨_, rfl⟩

/-- C2: for every `ExportOptions` value, `export_clip` returns an outcome
whose `output_path` is exactly `{output_dir}/clip_{clip_id}_{format}.mp4`
(the `.mp4` suffix is literal, regardless of `format`) and whose `success`
field is `true`.  The embedding takes no filesystem, so this holds
regardless of whether `output_dir` exists. -/
theorem export_clip_output_path_c2 (o : ExportOptions) :
    ∃ r : ExportResult, export_clip o = Except.ok r ∧
      r.output_path = some (o.output_dir ++ "/clip_" ++ o.clip_id ++ "_"
        ++ o.format ++ ".mp4") ∧
      r.success = true :=
  ⟨_, rfl, rfl, rfl⟩

/-- C4: `export_clip` is declared fallible (its result type is
`Except String _`), yet for every input — including nonsensical ones such
as an empty `output_dir` — it returns the `ok` branch with `error = none`
and never takes the error channel. -/
theorem export_clip_never_fails_c4 (o : ExportOptions) :
    ∃ r : ExportResult, export_clip o = Except.ok r ∧ r.error = none :=
  ⟨_, rfl, rfl⟩

/-- C6: every `ExportResult` produced by `export_clip` satisfies the
success-side invariant: `success` is `true`, `output_path` is populated
(`isSome`), and `error` is `none`. -/
theorem export_clip_invariant_c6 (o : ExportOptions) (r : ExportResult)
    (h : export_clip o = Except.ok r) :
    r.success = true ∧ r.output_path.isSome ∧ r.error = none := by
  cases h
  exact ⟨rfl, rfl, rfl⟩

/-- Witness for C6 at a concrete request. -/
theorem export_clip_invariant_c6_witness :
    demoResult.success = true ∧ demoResult.output_path.isSome ∧
      demoResult.error = none :=
  export_clip_invariant_c6 demoOptions demoResult rfl

/-- C8: `get_audio_info` and `export_clip` are pure, deterministic
in-memory computations — their embeddings are functions of their string
arguments alone (no host oracle, unlike `open_url`, and no filesystem
state), so two runs on equal inputs return identical results. -/
theorem pure_deterministic_c8 (p₁ p₂ : String) (o₁ o₂ : ExportOptions)
    (hp : p₁ = p₂) (ho : o₁ = o₂) :
    get_audio_info p₁ = get_audio_info p₂ ∧ export_clip o₁ = export_clip o₂ :=
  ⟨hp ▸ rfl, ho ▸ rfl⟩

/-- Witness for C8 at concrete equal inputs. -/
theorem pure_deterministic_c8_witness :
    get_audio_info "/tmp/song.wav" = get_audio_info "/tmp/song.wav" ∧
      export_clip demoOptions = export_clip demoOptions :=
  pure_deterministic_c8 "/tmp/song.wav" "/tmp/song.wav" demoOptions
    demoOptions rfl rfl

/-- C7: `open_url` fails exactly when the host's open primitive fails on
the given value, forwarding the host error string verbatim with no added
context, and succeeds silently (unit payload) otherwise; no validation of
the URL's shape happens before the host call.  When the host's error
rendering is never empty, the forwarded message is non-empty. -/
theorem open_url_c7 {ε : Type} (toStr : ε → String)
    (hostOpen : String → Except ε Unit) (url : String)
    (hne : ∀ e : ε, toStr e ≠ "") :
    ((∃ s, open_url toStr hostOpen url = Except.error s ∧ s ≠ "" ∧
        ∃ e, hostOpen url = Except.error e ∧ s = toStr e) ↔
      ∃ e, hostOpen url = Except.error e) ∧
    (hostOpen url = Except.ok () → open_url toStr hostOpen url = Except.ok ()) := by
  constructor
  · constructor
    · rintro ⟨s, _, _, e, he, _⟩
      exact ⟨e, he⟩
    · rintro ⟨e, he⟩
      exact ⟨toStr e, by simp [open_url, he], hne e, e, he, rfl⟩
  · intro h
    simp [open_url, h]

/-- Witness for C7 with a concrete host oracle that rejects every URL with
the message `"no handler"`. -/
theorem open_url_c7_witness :
    ((∃ s, open_url demoToStr demoHostOpen "" = Except.error s ∧ s ≠ "" ∧
        ∃ e, demoHostOpen "" = Except.error e ∧ s = demoToStr e) ↔
      ∃ e, demoHostOpen "" = Except.error e) ∧
    (demoHostOpen "" = Except.ok () →
      open_url demoToStr demoHostOpen "" = Except.ok ()) :=
  open_url_c7 demoToStr demoHostOpen "" (fun e => by cases e; decide)

/-- Dropping the non-dot run of a list that ends right before a dot stops
exactly at that dot. -/
lemma dropWhile_until_dot (l t : List Char) (h : '.' ∉ l) :
    (l ++ '.' :: t).dropWhile notDot = '.' :: t := by
  induction l with
  | nil =>
    rw [List.nil_append, List.dropWhile_cons]
    simp [notDot]
  | cons c l ih =>
    have hc : c ≠ '.' := fun e => h (e ▸ List.mem_cons_self c l)
    have hl : '.' ∉ l := fun m => h (List.mem_cons_of_mem c m)
    rw [List.cons_append, List.dropWhile_cons]
    simp only [notDot, hc, decide_not, decide_eq_true_eq]
    simp [hc, ih hl]

/-- `stemChars` on a name of the shape `a ++ "." ++ b` with `a` nonempty
and `b` dot-free returns `a`: only the final dot-suffix is removed. -/
lemma stemChars_before_last_dot (a b : List Char) (ha : a ≠ [])
    (hb : '.' ∉ b) : stemChars (a ++ '.' :: b) = a := by
  unfold stemChars
  have hrev : (a ++ '.' :: b).reverse = b.reverse ++ '.' :: a.reverse := by
    simp
  have hbrev : '.' ∉ b.reverse := by simpa using hb
  rw [hrev, dropWhile_until_dot _ _ hbrev]
  have : a.reverse ≠ [] := by simpa using ha
  simp [this]

/-- `stemChars` keeps a name whose only dot is the leading one. -/
lemma stemChars_leading_dot (b : List Char) (hb : '.' ∉ b) :
    stemChars ('.' :: b) = '.' :: b := by
  unfold stemChars
  have hrev : ('.' :: b).reverse = b.reverse ++ '.' :: [] := by simp
  have hbrev : '.' ∉ b.reverse := by simpa using hb
  rw [hrev, dropWhile_until_dot _ _ hbrev]
  simp

/-- `stemChars` keeps a dot-free name whole. -/
lemma stemChars_no_dot (cs : List Char) (h : '.' ∉ cs) :
    stemChars cs = cs := by
  unfold stemChars
  have : cs.reverse.dropWhile notDot = [] := by
    rw [List.dropWhile_eq_nil_iff]
    intro x hx
    have hxcs : x ∈ cs := List.mem_reverse.mp hx
    have : x ≠ '.' := fun e => h (e ▸ hxcs)
    simp [notDot, this]
  simp [this]

/-- On any path whose file name is the segment `s`, the name field of
`get_audio_info` is the string of `stemChars s`. -/
lemma nameOf_of_file_name (p : String) (s : List Char)
    (h : file_name p = some s) : nameOf p = String.mk (stemChars s) := by
  simp [nameOf, get_audio_info, file_stem, h]

/-- C10: the extension stripping in `get_audio_info` removes at most the
final dot-suffix of the last path segment, matching Rust `file_stem`
semantics: for a last segment `a ++ "." ++ b` with `a` nonempty and `b`
dot-free, the name is `a` (so `a.tar.gz` keeps `a.tar`); for a last
segment whose only dot is the leading one (such as `.bashrc`), the whole
segment is the name unchanged; and a dot-free last segment is also kept
whole. -/
theorem get_audio_info_stem_c10 :
    (∀ (p : String) (a b : List Char),
      file_name p = some (a ++ '.' :: b) → a ≠ [] → '.' ∉ b →
        nameOf p = String.mk a) ∧
    (∀ (p : String) (b : List Char),
      file_name p = some ('.' :: b) → '.' ∉ b →
        nameOf p = String.mk ('.' :: b)) ∧
    (∀ (p : String) (s : List Char),
      file_name p = some s → '.' ∉ s → nameOf p = String.mk s) := by
  refine ⟨fun p a b h ha hb => ?_, fun p b h hb => ?_, fun p s h hs => ?_⟩
  · rw [nameOf_of_file_name p _ h, stemChars_before_last_dot a b ha hb]
  · rw [nameOf_of_file_name p _ h, stemChars_leading_dot b hb]
  · rw [nameOf_of_file_name p _ h, stemChars_no_dot s hs]

/-- Witness for C10 at the segments `a.tar.gz`, `.bashrc` and `song`. -/
theorem get_audio_info_stem_c10_witness :
    nameOf "a.tar.gz" = String.mk ['a', '.', 't', 'a', 'r'] ∧
      nameOf "/home/.bashrc" =
        String.mk ['.', 'b', 'a', 's', 'h', 'r', 'c'] ∧
      nameOf "/tmp/song" = String.mk ['s', 'o', 'n', 'g'] :=
  ⟨get_audio_info_stem_c10.1 "a.tar.gz" ['a', '.', 't', 'a', 'r']
      ['g', 'z'] (by decide) (by decide) (by decide),
    get_audio_info_stem_c10.2.1 "/home/.bashrc"
      ['b', 'a', 's', 'h', 'r', 'c'] (by decide) (by decide),
    get_audio_info_stem_c10.2.2 "/tmp/song" ['s', 'o', 'n', 'g']
      (by decide) (by decide)⟩

/-- Parsing and filtering the pieces commute: filtering the kept pieces
and tagging each with its component equals `filterMap pieceToComponent`. -/
lemma filterMap_pieces (l : List (List Char)) :
    l.filterMap pieceToComponent =
      (l.filter keepPiece).map pieceComponentOf := by
  induction l with
  | nil => rfl
  | cons s l ih =>
    by_cases h1 : s = []
    · subst h1
      simp [List.filterMap_cons, List.filter_cons, pieceToComponent,
        keepPiece, ih]
    · by_cases h2 : s = ['.']
      · subst h2
        simp [List.filterMap_cons, List.filter_cons, pieceToComponent,
          keepPiece, ih]
      · by_cases h3 : s = ['.', '.']
        · subst h3
          simp [List.filterMap_cons, List.filter_cons, pieceToComponent,
            keepPiece, pieceComponentOf, ih]
        · simp [List.filterMap_cons, List.filter_cons, pieceToComponent,
            keepPiece, pieceComponentOf, h1, h2, h3, ih]

/-- Prepending the leading component does not change the last element of a
nonempty body. -/
lemma getLast?_withLeading (p : String) (body : List Component)
    (hb : body ≠ []) : (withLeading p body).getLast? = body.getLast? := by
  unfold withLeading
  split
  · exact List.getLast?_append_of_ne_nil [Component.rootDir] hb
  · exact List.getLast?_append_of_ne_nil [Component.curDir] hb
  · exact List.getLast?_append_of_ne_nil [Component.curDir] hb
  · rfl

/-- With an empty body, the component list ends (if at all) in the leading
root / current-dir marker, never in a normal segment. -/
lemma withLeading_nil_getLast? (p : String) :
    (withLeading p []).getLast? = none ∨
      (withLeading p []).getLast? = some Component.rootDir ∨
      (withLeading p []).getLast? = some Component.curDir := by
  unfold withLeading
  split <;> simp

/-- `file_name` in terms of the kept pieces: the last piece that is
neither empty nor `.`, unless it is `..`. -/
lemma file_name_eq_filter (p : String) :
    file_name p =
      match ((splitOnSlash p.toList).filter keepPiece).getLast? with
      | none => none
      | some s => if s = ['.', '.'] then none else some s := by
  unfold file_name components
  rw [filterMap_pieces]
  rcases List.eq_nil_or_concat'
      ((splitOnSlash p.toList).filter keepPiece) with h | ⟨q, s, h⟩
  · rw [h]
    simp only [List.map_nil, List.getLast?_nil]
    rcases withLeading_nil_getLast? p with h1 | h1 | h1 <;> rw [h1]
  · rw [h, List.map_append, List.map_singleton]
    have hb : (q.map pieceComponentOf) ++ [pieceComponentOf s] ≠ [] := by
      simp
    rw [getLast?_withLeading p _ hb, List.getLast?_append_cons,
      List.getLast?_append_cons]
    by_cases hs : s = ['.', '.']
    · subst hs
      simp [pieceComponentOf]
    · simp [pieceComponentOf, hs]

/-- C1 counterexample: on the path `"."` the last path segment is `"."`
(a segment can be derived, and its extension-stripped form is `"."`), yet
`get_audio_info` names the file `"Unknown"`. -/
theorem get_audio_info_name_c1_counterexample :
    nameOf "." = "Unknown" ∧ specNameOfPath "." = "." ∧
      nameOf "." ≠ specNameOfPath "." := by decide

/-- C1 amended: for every input string `path`, the name returned by
`get_audio_info` equals the last path segment with its extension removed
— where empty segments and `.` segments are ignored, and a trailing `..`
segment derives no name — or the literal `"Unknown"` when no segment can
be derived this way (e.g. `""`, `"/"`, `"."`, `"a/.."`). -/
theorem get_audio_info_name_c1_amended (p : String) :
    nameOf p = amendedNameOfPath p := by
  have h := file_name_eq_filter p
  unfold amendedNameOfPath
  cases hlast : ((splitOnSlash p.toList).filter keepPiece).getLast? with
  | none =>
    rw [hlast] at h
    simp [nameOf, get_audio_info, file_stem, h]
  | some s =>
    rw [hlast] at h
    dsimp only at h ⊢
    by_cases hs : s = ['.', '.']
    · subst hs
      rw [if_pos rfl] at h
      rw [if_pos rfl]
      simp [nameOf, get_audio_info, file_stem, h]
    · rw [if_neg hs] at h
      rw [if_neg hs]
      simp [nameOf, get_audio_info, file_stem, h]

end PodcastClipper
